import Mathlib

/-!
# Verification of the MeinPortfolio core engines

A shallow embedding of the portfolio-tracking application's core logic:
the position/valuation engine (`database.get_portfolio_positions`,
`database.get_portfolio_summary`, `models.PortfolioPosition`), the
portfolio totals (`portfolio_service.get_total_portfolio_value`,
`get_total_profit_loss`), sell validation
(`portfolio_service.validate_transaction` / `add_transaction`) and the
alert evaluation engine (`alert_service.check_alerts`).

Conventions of the embedding:
* `Decimal` / SQL `REAL` values are modelled as exact rationals `ℚ`.
* Dates (ISO strings compared lexicographically in SQL) are modelled as
  `Nat` (days since 1970-01-01); the SQL orderings coincide.
* SQL tables are lists of records; the `price` table's
  `UNIQUE(asset_id, price_date)` key is an explicit hypothesis where a
  claim needs it.
* Fallible code returns `Except`.
-/

set_option autoImplicit false

namespace MeinPortfolio

/-- `models.TransactionType`: `buy` or `sell`. -/
inductive TransactionType where
  | buy
  | sell
deriving Repr, DecidableEq

/-- A row of the `portfolio_transaction` table (`models.Transaction`).
`transactionDate` is a day number (ISO date strings order like `Nat`). -/
structure Transaction where
  assetId : Nat
  transactionType : TransactionType
  quantity : ℚ
  price : ℚ
  currency : String
  transactionDate : Nat
deriving Repr, DecidableEq

/-- A row of the `price` table (`models.Price`): one close per
`(assetId, priceDate)`. -/
structure PriceObs where
  assetId : Nat
  priceDate : Nat
  close : ℚ
deriving Repr, DecidableEq

/-- `models.AlertType`: `above`, `below`, `change_percent`. -/
inductive AlertType where
  | above
  | below
  | changePercent
deriving Repr, DecidableEq

/-- A row of the `price_alert` table (`models.PriceAlert`). -/
structure PriceAlert where
  id : Nat
  assetId : Nat
  alertType : AlertType
  thresholdValue : ℚ
  currency : String
  active : Bool
  triggered : Bool
  triggeredAt : Option Nat
  notificationSent : Bool
deriving Repr, DecidableEq

/-- `models.TriggeredAlert` (the message string is presentation only and
not modelled). -/
structure TriggeredAlert where
  alert : PriceAlert
  currentPrice : ℚ
deriving Repr, DecidableEq

/-! ## Latest/previous price resolution

`check_alerts` and `get_portfolio_summary` both resolve the price row
with the maximal `price_date` for an asset (`ORDER BY price_date DESC
LIMIT 1` resp. `MAX(price_date)`), and the `CHANGE_PERCENT` branch
resolves the most recent row strictly before that date. -/

/-- One step of the date-maximum scan. -/
def pickStep (acc : Option PriceObs) (p : PriceObs) : Option PriceObs :=
  match acc with
  | none => some p
  | some q => if q.priceDate < p.priceDate then some p else some q

/-- Pick the row with the maximal `priceDate` from a list (the SQL
`MAX(price_date)` row; on a duplicated date the earlier row wins, which
the `UNIQUE(asset_id, price_date)` constraint makes irrelevant). -/
def pickLatest (l : List PriceObs) : Option PriceObs :=
  l.foldl pickStep none

/-- All price rows of one asset. -/
def assetPrices (prices : List PriceObs) (aid : Nat) : List PriceObs :=
  prices.filter (fun p => p.assetId == aid)

/-- The latest price row for an asset. -/
def latestPrice (prices : List PriceObs) (aid : Nat) : Option PriceObs :=
  pickLatest (assetPrices prices aid)

/-- The latest close for an asset, as `check_alerts` fetches it. -/
def latestClose (prices : List PriceObs) (aid : Nat) : Option ℚ :=
  (latestPrice prices aid).map (fun p => p.close)

/-- The row `check_alerts` fetches for `CHANGE_PERCENT`: maximal
`price_date` among rows with `price_date < MAX(price_date)` of the same
asset. -/
def prevObs (prices : List PriceObs) (aid : Nat) : Option PriceObs :=
  match latestPrice prices aid with
  | none => none
  | some lp =>
      pickLatest ((assetPrices prices aid).filter
        (fun p => decide (p.priceDate < lp.priceDate)))

/-- The close of the second-most-recent observation (`yesterday_row`). -/
def prevClose (prices : List PriceObs) (aid : Nat) : Option ℚ :=
  (prevObs prices aid).map (fun p => p.close)

/-! ## Alert evaluation (`alert_service.check_alerts`) -/

/-- The trigger predicate of one loop iteration of
`AlertService.check_alerts`: no (or NULL) latest price skips the alert;
`ABOVE` triggers iff `current_price >= threshold`, `BELOW` iff
`current_price <= threshold`; `CHANGE_PERCENT` needs a previous close
`> 0` and triggers iff `|((current/previous) - 1) * 100| >= threshold`. -/
def evalTrigger (prices : List PriceObs) (alert : PriceAlert) : Bool :=
  match latestClose prices alert.assetId with
  | none => false
  | some currentPrice =>
      match alert.alertType with
      | .above => decide (alert.thresholdValue ≤ currentPrice)
      | .below => decide (currentPrice ≤ alert.thresholdValue)
      | .changePercent =>
          match prevClose prices alert.assetId with
          | none => false
          | some yesterdayPrice =>
              if 0 < yesterdayPrice then
                decide (alert.thresholdValue ≤
                  |((currentPrice / yesterdayPrice) - 1) * 100|)
              else false

/-- `AlertService.get_active_alerts` (no asset filter): rows with
`active = 1 AND triggered = 0`. -/
def get_active_alerts (alerts : List PriceAlert) : List PriceAlert :=
  alerts.filter (fun a => a.active && !a.triggered)

/-- The row update `check_alerts` persists on a trigger:
`SET triggered = 1, triggered_at = now, notification_sent = 1`. -/
def triggeredVersion (a : PriceAlert) (now : Nat) : PriceAlert :=
  { a with triggered := true, triggeredAt := some now, notificationSent := true }

/-- The `UPDATE price_alert ... WHERE id = ?` applied to the table. -/
def triggerUpdate (table : List PriceAlert) (alertId : Nat) (now : Nat) :
    List PriceAlert :=
  table.map (fun a => if a.id == alertId then triggeredVersion a now else a)

/-- The `TriggeredAlert` appended to the batch for one triggering alert
(the source wraps the already-mutated alert object). -/
def mkTriggeredAlert (prices : List PriceObs) (a : PriceAlert) (now : Nat) :
    TriggeredAlert :=
  { alert := triggeredVersion a now
    currentPrice := (latestClose prices a.assetId).getD 0 }

/-- The loop of `check_alerts` when no persistence failure occurs:
walk the active alerts, and for each triggering one update the table and
append to the batch. -/
def runAlerts (prices : List PriceObs) (now : Nat) :
    List PriceAlert → List PriceAlert → List TriggeredAlert →
    List PriceAlert × List TriggeredAlert
  | [], table, batch => (table, batch)
  | a :: rest, table, batch =>
      if evalTrigger prices a then
        runAlerts prices now rest (triggerUpdate table a.id now)
          (batch ++ [mkTriggeredAlert prices a now])
      else
        runAlerts prices now rest table batch

/-- One evaluation pass (`AlertService.check_alerts`) without failures.
`cb` says whether a notification callback is registered. Returns the
final `price_alert` table, the returned batch, and the list of callback
invocations (each carrying its batch argument): the source has a single
call site `if triggered and self._notification_callback` after the
loop. -/
def check_alerts (prices : List PriceObs) (now : Nat) (cb : Bool)
    (alerts : List PriceAlert) :
    List PriceAlert × List TriggeredAlert × List (List TriggeredAlert) :=
  let r := runAlerts prices now (get_active_alerts alerts) alerts []
  (r.1, r.2, if r.2 ≠ [] ∧ cb then [r.2] else [])

/-- A sequence of evaluation passes: fold `check_alerts` over the
`price_alert` table (the callback flag does not affect the table). -/
def runPasses (passes : List (List PriceObs × Nat))
    (alerts : List PriceAlert) : List PriceAlert :=
  passes.foldl (fun table p => (check_alerts p.1 p.2 true table).1) alerts

/-- The loop of `check_alerts` with a fallible per-alert persist step
(`persistFails` says whether the `UPDATE` for a given alert id fails).
In the source each triggering alert is persisted inside its own
`with self._db.transaction()` block, which commits immediately; on a
failure the failing alert's own update is rolled back, the exception
escapes the loop (re-raised as `DatabaseError`), and the updates already
committed for earlier alerts in the same pass are kept. `Except.error`
carries the table as persisted at the moment of the failure. -/
def runAlertsFallible (prices : List PriceObs) (now : Nat)
    (persistFails : Nat → Bool) :
    List PriceAlert → List PriceAlert → List TriggeredAlert →
    Except (List PriceAlert) (List PriceAlert × List TriggeredAlert)
  | [], table, batch => .ok (table, batch)
  | a :: rest, table, batch =>
      if evalTrigger prices a then
        if persistFails a.id then .error table
        else
          runAlertsFallible prices now persistFails rest
            (triggerUpdate table a.id now)
            (batch ++ [mkTriggeredAlert prices a now])
      else runAlertsFallible prices now persistFails rest table batch

/-- `AlertService.check_alerts` with fallible persistence. On success it
behaves like `check_alerts`; on a failure the pass aborts: no batch is
returned and the notification callback is never reached (the call site
sits after the loop). -/
def check_alerts_fallible (prices : List PriceObs) (now : Nat)
    (persistFails : Nat → Bool) (cb : Bool) (alerts : List PriceAlert) :
    Except (List PriceAlert)
      (List PriceAlert × List TriggeredAlert × List (List TriggeredAlert)) :=
  match runAlertsFallible prices now persistFails
      (get_active_alerts alerts) alerts [] with
  | .error table => .error table
  | .ok (table, batch) =>
      .ok (table, batch, if batch ≠ [] ∧ cb then [batch] else [])

/-! ## Position engine (`PriceRepository.get_portfolio_positions`) -/

/-- The signed quantity of a ledger row: `BUY` counts `+quantity`,
`SELL` counts `-quantity` (the `CASE` expression of the SQL query). -/
def signedQty (t : Transaction) : ℚ :=
  match t.transactionType with
  | .buy => t.quantity
  | .sell => -t.quantity

/-- One `GROUP BY (asset_id, currency)` group of the ledger. -/
def groupTxns (ledger : List Transaction) (aid : Nat) (cur : String) :
    List Transaction :=
  ledger.filter (fun t => t.assetId == aid && t.currency == cur)

/-- `SUM(CASE ... quantity ...)`: the signed quantity sum of a group. -/
def totalQuantity (g : List Transaction) : ℚ :=
  (g.map signedQty).sum

/-- `SUM(CASE ... quantity * price ...)`: the signed cost sum. -/
def signedCostSum (g : List Transaction) : ℚ :=
  (g.map (fun t => signedQty t * t.price)).sum

/-- The SQL `avg_price` column: `signedCostSum / NULLIF(totalQuantity, 0)`
(`none` models SQL `NULL`). -/
def avgPriceRaw (g : List Transaction) : Option ℚ :=
  if totalQuantity g = 0 then none
  else some (signedCostSum g / totalQuantity g)

/-- `models.PortfolioPosition` (the redundant `symbol`/`name` columns
are keyed by `assetId` and carry no logic). -/
structure PortfolioPosition where
  assetId : Nat
  quantity : ℚ
  averageBuyPrice : ℚ
  currency : String
  firstBuyDate : Nat
  lastTransactionDate : Nat
deriving Repr, DecidableEq

/-- The `(asset_id, currency)` group keys present in the ledger. -/
def ledgerKeys (ledger : List Transaction) : List (Nat × String) :=
  (ledger.map (fun t => (t.assetId, t.currency))).dedup

/-- The row built for a surviving group: `average_buy_price` is
`float(row[4]) if row[4] else 0.0` over the SQL `avg_price` column,
`first_buy_date = MIN(transaction_date)`,
`last_transaction_date = MAX(transaction_date)`. -/
def mkPosition (aid : Nat) (cur : String) (g : List Transaction) :
    PortfolioPosition :=
  { assetId := aid
    quantity := totalQuantity g
    averageBuyPrice :=
      match avgPriceRaw g with
      | none => 0
      | some v => if v = 0 then 0 else v
    currency := cur
    firstBuyDate := ((g.map (fun t => t.transactionDate)).min?).getD 0
    lastTransactionDate := ((g.map (fun t => t.transactionDate)).max?).getD 0 }

/-- `PriceRepository.get_portfolio_positions`: group the full ledger by
`(asset_id, currency)`, keep the groups with `HAVING total_quantity > 0`
(the `ORDER BY a.symbol` output order carries no logic and is not
modelled). -/
def get_portfolio_positions (ledger : List Transaction) :
    List PortfolioPosition :=
  (ledgerKeys ledger).filterMap (fun k =>
    let g := groupTxns ledger k.1 k.2
    if 0 < totalQuantity g then some (mkPosition k.1 k.2 g) else none)

/-! ## Valuation (`models.PortfolioPosition` methods,
`PriceRepository.get_portfolio_summary`) -/

/-- `PortfolioPosition.calculate_current_value`. -/
def calculate_current_value (pos : PortfolioPosition) (currentPrice : ℚ) : ℚ :=
  pos.quantity * currentPrice

/-- `PortfolioPosition.calculate_total_cost`. -/
def calculate_total_cost (pos : PortfolioPosition) : ℚ :=
  pos.quantity * pos.averageBuyPrice

/-- `PortfolioPosition.calculate_profit_loss`. -/
def calculate_profit_loss (pos : PortfolioPosition) (currentPrice : ℚ) : ℚ :=
  calculate_current_value pos currentPrice - calculate_total_cost pos

/-- `PortfolioPosition.calculate_profit_loss_percent`: returns `0` when
`total_cost == 0`, otherwise divides by `average_buy_price`. -/
def calculate_profit_loss_percent (pos : PortfolioPosition)
    (currentPrice : ℚ) : ℚ :=
  if calculate_total_cost pos = 0 then 0
  else ((currentPrice - pos.averageBuyPrice) / pos.averageBuyPrice) * 100

/-- `models.PortfolioSummary`. -/
structure PortfolioSummary where
  assetId : Nat
  quantity : ℚ
  avgBuyPrice : ℚ
  currentPrice : ℚ
  currency : String
  currentValue : ℚ
  totalCost : ℚ
  profitLoss : ℚ
  profitLossPercent : ℚ
  lastUpdate : Nat
deriving Repr, DecidableEq

/-- The summary row `get_portfolio_summary` builds for one position. -/
def mkSummary (pos : PortfolioPosition) (currentPrice : ℚ)
    (lastUpdate : Nat) : PortfolioSummary :=
  { assetId := pos.assetId
    quantity := pos.quantity
    avgBuyPrice := pos.averageBuyPrice
    currentPrice := currentPrice
    currency := pos.currency
    currentValue := calculate_current_value pos currentPrice
    totalCost := calculate_total_cost pos
    profitLoss := calculate_profit_loss pos currentPrice
    profitLossPercent := calculate_profit_loss_percent pos currentPrice
    lastUpdate := lastUpdate }

/-- `PriceRepository.get_portfolio_summary`: combine each position with
the latest price row of its asset; with no price row, `current_price = 0`
and `last_update = today`. -/
def get_portfolio_summary (ledger : List Transaction)
    (prices : List PriceObs) (today : Nat) : List PortfolioSummary :=
  (get_portfolio_positions ledger).map (fun pos =>
    match latestPrice prices pos.assetId with
    | some p => mkSummary pos p.close p.priceDate
    | none => mkSummary pos 0 today)

/-! ## Portfolio totals (`PortfolioService.get_total_portfolio_value`,
`get_total_profit_loss`)

The Python code accumulates per-currency totals in a `dict`, which keeps
keys in insertion order; the embedding uses an association list with the
same discipline (update in place if the key exists, else append). -/

/-- `totals_by_currency[c] += v` (inserting `0` first if absent). -/
def updateAssoc {V : Type} [Add V] (m : List (String × V)) (c : String)
    (v : V) : List (String × V) :=
  if m.any (fun p => p.1 == c) then
    m.map (fun p => if p.1 == c then (p.1, p.2 + v) else p)
  else m ++ [(c, v)]

/-- The per-currency accumulation loop over the summaries. -/
def foldTotals {α V : Type} [Add V] (curOf : α → String) (valOf : α → V)
    (l : List α) : List (String × V) :=
  l.foldl (fun m s => updateAssoc m (curOf s) (valOf s)) []

/-- The value stored for a currency in the accumulated association list
(`0` when absent); specification device for the fold lemmas. -/
def assocVal {V : Type} [Zero V] (m : List (String × V)) (c : String) : V :=
  match m.find? (fun p => p.1 == c) with
  | some p => p.2
  | none => 0

/-- `PortfolioService.get_total_portfolio_value`: the `current_value`
total of the first currency encountered, with that currency; the default
currency and `0` on an empty summary list. -/
def get_total_portfolio_value (defaultCurrency : String)
    (summaries : List PortfolioSummary) : ℚ × String :=
  match foldTotals (fun s => s.currency) (fun s => s.currentValue)
      summaries with
  | [] => (0, defaultCurrency)
  | (c, v) :: _ => (v, c)

/-- `PortfolioService.get_total_profit_loss`: per currency the code
accumulates `(profit_loss, total_cost, current_value)`; the result is
`(profit_loss, percent, currency)` for the first currency, with
`percent = profit_loss / total_cost * 100` when `total_cost > 0` and `0`
otherwise. -/
def get_total_profit_loss (defaultCurrency : String)
    (summaries : List PortfolioSummary) : ℚ × ℚ × String :=
  match foldTotals (fun s => s.currency)
      (fun s => (s.profitLoss, s.totalCost, s.currentValue)) summaries with
  | [] => (0, 0, defaultCurrency)
  | (c, v) :: _ =>
      (v.1, if 0 < v.2.1 then (v.1 / v.2.1) * 100 else 0, c)

/-! ## Transaction recording (`PortfolioService.add_transaction`,
`validate_transaction`, `InputValidator`) -/

/-- A raised `ValidationError` (headline only; the detail string is
presentation). -/
structure AppError where
  headline : String
deriving Repr, DecidableEq

/-- `PortfolioService.get_asset_quantity`: the quantity of the first
position listed for the asset, `0` when none is listed. -/
def get_asset_quantity (ledger : List Transaction) (aid : Nat) : ℚ :=
  match (get_portfolio_positions ledger).find? (fun p => p.assetId == aid) with
  | some pos => pos.quantity
  | none => 0

/-- `PortfolioService.validate_transaction`: a SELL needs a listed
position (`current_quantity != 0`) covering the quantity. -/
def validate_transaction (ledger : List Transaction) (aid : Nat)
    (ttype : TransactionType) (qty : ℚ) : Except AppError Unit :=
  match ttype with
  | .buy => .ok ()
  | .sell =>
      let currentQuantity := get_asset_quantity ledger aid
      if currentQuantity = 0 then .error ⟨"Keine Position vorhanden"⟩
      else if currentQuantity < qty then .error ⟨"Verkaufsmenge zu gross"⟩
      else .ok ()

/-- `InputValidator.MAX_QUANTITY` / `MAX_PRICE`. -/
def maxAmount : ℚ := 1000000000

/-- `InputValidator.MIN_QUANTITY` / `MIN_PRICE` (`0.00000001`). -/
def minAmount : ℚ := 1 / 100000000

/-- `InputValidator.validate_quantity` on an already-parsed number. -/
def validate_quantity (q : ℚ) : Except AppError ℚ :=
  if q ≤ 0 then .error ⟨"Menge muss positiv sein"⟩
  else if q < minAmount then .error ⟨"Menge zu klein"⟩
  else if maxAmount < q then .error ⟨"Menge zu gross"⟩
  else .ok q

/-- `InputValidator.validate_price` on an already-parsed number. -/
def validate_price (q : ℚ) : Except AppError ℚ :=
  if q ≤ 0 then .error ⟨"Preis muss positiv sein"⟩
  else if q < minAmount then .error ⟨"Preis zu klein"⟩
  else if maxAmount < q then .error ⟨"Preis zu gross"⟩
  else .ok q

/-- Python `str.strip()` modelled on the character list (the built-in
`String.trim` is not kernel-reducible). -/
def strTrim (s : String) : String :=
  ⟨((s.data.dropWhile Char.isWhitespace).reverse.dropWhile
      Char.isWhitespace).reverse⟩

/-- Python `str.upper()` modelled on the character list. -/
def strUpper (s : String) : String :=
  ⟨s.data.map Char.toUpper⟩

/-- `InputValidator.validate_currency`: non-blank, exactly three
letters, uppercased. -/
def validate_currency (c : String) : Except AppError String :=
  if (strTrim c).isEmpty then .error ⟨"Waehrung fehlt"⟩
  else
    let clean := strUpper (strTrim c)
    if clean.length ≠ 3 then .error ⟨"Ungueltige Waehrung"⟩
    else if !(clean.data.all Char.isAlpha) then
      .error ⟨"Ungueltige Waehrung"⟩
    else .ok clean

/-- `InputValidator.validate_date`: no future dates (`Nat` day numbers
start at 1970, so the `year < 1970` branch cannot fire). -/
def validate_date (today dte : Nat) : Except AppError Nat :=
  if today < dte then .error ⟨"Datum in der Zukunft"⟩ else .ok dte

/-- `PortfolioService.add_transaction`: the input validations and the
business validation run before any persistence call; only when all pass
is the row appended to the ledger (`save_transaction`). An `Except.error`
leaves the ledger unchanged. -/
def add_transaction (today : Nat) (defaultCurrency : String)
    (ledger : List Transaction) (aid : Nat) (ttype : TransactionType)
    (qty price : ℚ) (cur : String) (dte : Nat) :
    Except AppError (List Transaction) :=
  if aid = 0 then .error ⟨"Ungueltiges Asset"⟩ else
  match validate_quantity qty with
  | .error e => .error e
  | .ok vq =>
  match validate_price price with
  | .error e => .error e
  | .ok vp =>
  match validate_currency
      (if (strTrim cur).isEmpty then defaultCurrency else strTrim cur) with
  | .error e => .error e
  | .ok vc =>
  match validate_date today dte with
  | .error e => .error e
  | .ok vd =>
  match validate_transaction ledger aid ttype vq with
  | .error e => .error e
  | .ok _ => .ok (ledger ++ [⟨aid, ttype, vq, vp, vc, vd⟩])

/-- Modelled from the spec: the "current net holdings" of an asset is
the running signed quantity sum (BUY: `+quantity`, SELL: `-quantity`)
over all of the asset's ledger rows, across every currency. No single
source function computes this; it is the quantity notion of the spec's
sell-validation property. -/
def netHoldings (ledger : List Transaction) (aid : Nat) : ℚ :=
  totalQuantity (ledger.filter (fun t => t.assetId == aid))

instance {α β : Type} [DecidableEq α] [DecidableEq β] :
    DecidableEq (Except α β) := fun a b =>
  match a, b with
  | .error x, .error y =>
      if h : x = y then .isTrue (by rw [h]) else .isFalse (by simp [h])
  | .error _, .ok _ => .isFalse (by simp)
  | .ok _, .error _ => .isFalse (by simp)
  | .ok x, .ok y =>
      if h : x = y then .isTrue (by rw [h]) else .isFalse (by simp [h])

/-! ## Concrete scenarios used by worked examples and counterexamples -/

/-- The spec's valuation example: two BUYs, 10 @ 100 and 5 @ 200. -/
def exLedger : List Transaction :=
  [⟨1, .buy, 10, 100, "EUR", 1⟩, ⟨1, .buy, 5, 200, "EUR", 2⟩]

/-- A latest price of 150 for the valuation example. -/
def exPrices : List PriceObs := [⟨1, 2, 150⟩]

/-- A ledger whose asset 1 spans two currencies: BUY 10 in EUR, then
SELL 8 recorded in USD. Its positions view lists only the EUR group
(quantity 10); the USD group nets to `-8` and is dropped, yet the
signed sum over all rows — the asset's net holdings — is only 2. -/
def cxLedger : List Transaction :=
  [⟨1, .buy, 10, 100, "EUR", 1⟩, ⟨1, .sell, 8, 100, "USD", 2⟩]

/-- Two active untriggered ABOVE alerts (ids 1 and 2, threshold 10) on
asset 1. -/
def cxAlerts : List PriceAlert :=
  [⟨1, 1, .above, 10, "EUR", true, false, none, false⟩,
   ⟨2, 1, .above, 10, "EUR", true, false, none, false⟩]

/-- A latest price of 20 for asset 1: both `cxAlerts` trigger. -/
def cxAlertPrices : List PriceObs := [⟨1, 1, 20⟩]

/-- A persistence fault: the `UPDATE` for alert id 2 fails. -/
def cxFail : Nat → Bool := fun i => i == 2

/-! ## Lemmas: latest/previous price resolution -/

lemma foldl_pickStep_some (l : List PriceObs) (q : PriceObs) :
    ∃ r, l.foldl pickStep (some q) = some r ∧ (r = q ∨ r ∈ l) ∧
      q.priceDate ≤ r.priceDate ∧ ∀ x ∈ l, x.priceDate ≤ r.priceDate := by
  induction l generalizing q with
  | nil => exact ⟨q, rfl, Or.inl rfl, Nat.le_refl _, by simp⟩
  | cons p l ih =>
      by_cases h : q.priceDate < p.priceDate
      · obtain ⟨r, hr, hmem, hle, hall⟩ := ih p
        refine ⟨r, ?_, ?_, ?_, ?_⟩
        · simpa [List.foldl_cons, pickStep, h] using hr
        · rcases hmem with h1 | h1
          · exact Or.inr (by simp [h1])
          · exact Or.inr (List.mem_cons_of_mem _ h1)
        · exact Nat.le_trans (Nat.le_of_lt h) hle
        · intro x hx
          rcases List.mem_cons.mp hx with h1 | h1
          · subst h1; exact hle
          · exact hall x h1
      · obtain ⟨r, hr, hmem, hle, hall⟩ := ih q
        refine ⟨r, ?_, ?_, ?_, ?_⟩
        · simpa [List.foldl_cons, pickStep, h] using hr
        · rcases hmem with h1 | h1
          · exact Or.inl h1
          · exact Or.inr (List.mem_cons_of_mem _ h1)
        · exact hle
        · intro x hx
          rcases List.mem_cons.mp hx with h1 | h1
          · subst h1
            exact Nat.le_trans (Nat.le_of_not_lt h) hle
          · exact hall x h1

lemma pickLatest_some {l : List PriceObs} {r : PriceObs}
    (h : pickLatest l = some r) :
    r ∈ l ∧ ∀ x ∈ l, x.priceDate ≤ r.priceDate := by
  match l with
  | [] => simp [pickLatest] at h
  | p :: l =>
      obtain ⟨r2, hr2, hmem, hle, hall⟩ := foldl_pickStep_some l p
      have hp : pickLatest (p :: l) = some r2 := by
        simpa [pickLatest, List.foldl_cons, pickStep] using hr2
      rw [hp] at h
      cases h
      constructor
      · rcases hmem with h1 | h1
        · simp [h1]
        · exact List.mem_cons_of_mem _ h1
      · intro x hx
        rcases List.mem_cons.mp hx with h1 | h1
        · subst h1; exact hle
        · exact hall x h1

lemma pickLatest_isSome {l : List PriceObs} (h : l ≠ []) :
    ∃ r, pickLatest l = some r := by
  match l with
  | [] => exact absurd rfl h
  | p :: l =>
      obtain ⟨r2, hr2, _, _, _⟩ := foldl_pickStep_some l p
      exact ⟨r2, by simpa [pickLatest, List.foldl_cons, pickStep] using hr2⟩

lemma mem_assetPrices {prices : List PriceObs} {aid : Nat} {p : PriceObs} :
    p ∈ assetPrices prices aid ↔ p ∈ prices ∧ p.assetId = aid := by
  simp [assetPrices]

lemma latestPrice_some {prices : List PriceObs} {aid : Nat} {lp : PriceObs}
    (h : latestPrice prices aid = some lp) :
    lp ∈ prices ∧ lp.assetId = aid ∧
      ∀ q ∈ prices, q.assetId = aid → q.priceDate ≤ lp.priceDate := by
  obtain ⟨hmem, hmax⟩ := pickLatest_some h
  obtain ⟨h1, h2⟩ := mem_assetPrices.mp hmem
  exact ⟨h1, h2, fun q hq hq2 => hmax q (mem_assetPrices.mpr ⟨hq, hq2⟩)⟩

lemma latestPrice_isSome {prices : List PriceObs} {aid : Nat}
    {o : PriceObs} (ho : o ∈ prices) (ha : o.assetId = aid) :
    ∃ lp, latestPrice prices aid = some lp := by
  apply pickLatest_isSome
  intro hnil
  have : o ∈ assetPrices prices aid := mem_assetPrices.mpr ⟨ho, ha⟩
  rw [hnil] at this
  exact absurd this (List.not_mem_nil o)

lemma prevObs_some {prices : List PriceObs} {aid : Nat} {o : PriceObs}
    (h : prevObs prices aid = some o) :
    ∃ lp, latestPrice prices aid = some lp ∧ o ∈ prices ∧ o.assetId = aid ∧
      o.priceDate < lp.priceDate ∧
      ∀ q ∈ prices, q.assetId = aid → q.priceDate < lp.priceDate →
        q.priceDate ≤ o.priceDate := by
  unfold prevObs at h
  match hl : latestPrice prices aid with
  | none => rw [hl] at h; exact absurd h (by simp)
  | some lp =>
      rw [hl] at h
      obtain ⟨hmem, hmax⟩ := pickLatest_some h
      rw [List.mem_filter] at hmem
      obtain ⟨hm1, hm2⟩ := hmem
      obtain ⟨ho1, ho2⟩ := mem_assetPrices.mp hm1
      refine ⟨lp, rfl, ho1, ho2, by simpa using hm2, ?_⟩
      intro q hq hqa hqd
      exact hmax q (List.mem_filter.mpr
        ⟨mem_assetPrices.mpr ⟨hq, hqa⟩, by simpa using hqd⟩)

lemma prevObs_isSome {prices : List PriceObs} {aid : Nat}
    {lp o : PriceObs} (hl : latestPrice prices aid = some lp)
    (ho : o ∈ prices) (ha : o.assetId = aid)
    (hd : o.priceDate < lp.priceDate) :
    ∃ r, prevObs prices aid = some r := by
  unfold prevObs
  rw [hl]
  apply pickLatest_isSome
  intro hnil
  have : o ∈ (assetPrices prices aid).filter
      (fun p => decide (p.priceDate < lp.priceDate)) :=
    List.mem_filter.mpr ⟨mem_assetPrices.mpr ⟨ho, ha⟩, by simpa using hd⟩
  rw [hnil] at this
  exact absurd this (List.not_mem_nil o)

lemma runAlerts_nil (prices : List PriceObs) (now : Nat)
    (table : List PriceAlert) (batch : List TriggeredAlert) :
    runAlerts prices now [] table batch = (table, batch) := rfl

lemma runAlerts_cons (prices : List PriceObs) (now : Nat) (a : PriceAlert)
    (rest table : List PriceAlert) (batch : List TriggeredAlert) :
    runAlerts prices now (a :: rest) table batch =
      if evalTrigger prices a then
        runAlerts prices now rest (triggerUpdate table a.id now)
          (batch ++ [mkTriggeredAlert prices a now])
      else runAlerts prices now rest table batch := rfl

lemma runAlertsFallible_nil (prices : List PriceObs) (now : Nat)
    (pf : Nat → Bool) (table : List PriceAlert)
    (batch : List TriggeredAlert) :
    runAlertsFallible prices now pf [] table batch = .ok (table, batch) :=
  rfl

lemma runAlertsFallible_cons (prices : List PriceObs) (now : Nat)
    (pf : Nat → Bool) (a : PriceAlert) (rest table : List PriceAlert)
    (batch : List TriggeredAlert) :
    runAlertsFallible prices now pf (a :: rest) table batch =
      if evalTrigger prices a then
        if pf a.id then .error table
        else
          runAlertsFallible prices now pf rest (triggerUpdate table a.id now)
            (batch ++ [mkTriggeredAlert prices a now])
      else runAlertsFallible prices now pf rest table batch := rfl

/-! ## C4 — inclusive ABOVE/BELOW boundaries -/

lemma single_pass_batch_iff (prices : List PriceObs) (now : Nat)
    (cb : Bool) (alert : PriceAlert) (hact : alert.active = true)
    (htrig : alert.triggered = false) :
    (check_alerts prices now cb [alert]).2.1 ≠ [] ↔
      evalTrigger prices alert = true := by
  have hactive : get_active_alerts [alert] = [alert] := by
    simp [get_active_alerts, List.filter_cons, hact, htrig]
  simp only [check_alerts, hactive]
  cases he : evalTrigger prices alert with
  | false => simp [runAlerts_cons, runAlerts_nil, he]
  | true => simp [runAlerts_cons, runAlerts_nil, he]

/-- C4: for an active, untriggered alert whose asset resolves a latest
price, an `ABOVE` alert triggers exactly when
`current_price ≥ threshold_value` and a `BELOW` alert exactly when
`current_price ≤ threshold_value` — both boundaries inclusive, so at
`current_price = threshold_value` both alert kinds trigger; an
evaluation pass over the single-alert table produces a non-empty batch
exactly when the trigger predicate holds. -/
theorem above_below_inclusive_boundary (prices : List PriceObs)
    (alert : PriceAlert) (cp : ℚ)
    (hcp : latestClose prices alert.assetId = some cp) :
    (alert.alertType = .above →
      (evalTrigger prices alert = true ↔ alert.thresholdValue ≤ cp)) ∧
    (alert.alertType = .below →
      (evalTrigger prices alert = true ↔ cp ≤ alert.thresholdValue)) ∧
    (alert.active = true → alert.triggered = false →
      ∀ (now : Nat) (cb : Bool),
        (check_alerts prices now cb [alert]).2.1 ≠ [] ↔
          evalTrigger prices alert = true) := by
  refine ⟨?_, ?_, fun hact htrig now cb =>
    single_pass_batch_iff prices now cb alert hact htrig⟩
  · unfold evalTrigger
    rw [hcp]
    intro hty; rw [hty]; simp
  · unfold evalTrigger
    rw [hcp]
    intro hty; rw [hty]; simp

/-- Witness for C4: with threshold `100` and latest price exactly `100`,
an `ABOVE` alert triggers and a `BELOW` alert triggers. -/
theorem above_below_inclusive_boundary_witness :
    evalTrigger [⟨1, 1, 100⟩]
      ⟨1, 1, .above, 100, "EUR", true, false, none, false⟩ = true ∧
    evalTrigger [⟨1, 1, 100⟩]
      ⟨2, 1, .below, 100, "EUR", true, false, none, false⟩ = true := by
  have hcpA : latestClose [(⟨1, 1, 100⟩ : PriceObs)] 1 = some 100 := by
    simp [latestClose, latestPrice, assetPrices, pickLatest, pickStep]
  constructor
  · exact ((above_below_inclusive_boundary [⟨1, 1, 100⟩]
      ⟨1, 1, .above, 100, "EUR", true, false, none, false⟩ 100 hcpA).1
        rfl).mpr (le_refl 100)
  · exact ((above_below_inclusive_boundary [⟨1, 1, 100⟩]
      ⟨2, 1, .below, 100, "EUR", true, false, none, false⟩ 100 hcpA).2.1
        rfl).mpr (le_refl 100)

/-! ## C1 — CHANGE_PERCENT semantics -/

/-- C1: a `CHANGE_PERCENT` alert whose asset resolves a latest price
triggers exactly when the second-most-recent observation exists with a
positive close `pp` and `|((current/pp) - 1) * 100| ≥ threshold`; the
observation `check_alerts` uses is precisely the one with the maximal
date strictly before the latest date (unique under the
`UNIQUE(asset_id, price_date)` key). In particular prices `100` (day 1),
`110` (day 2) trigger a threshold-5 alert, and `100`, `103` do not. -/
theorem change_percent_trigger :
    (∀ (prices : List PriceObs) (alert : PriceAlert) (cp : ℚ),
      alert.alertType = .changePercent →
      latestClose prices alert.assetId = some cp →
      ((evalTrigger prices alert = true ↔
        ∃ pp, prevClose prices alert.assetId = some pp ∧ 0 < pp ∧
          alert.thresholdValue ≤ |((cp / pp) - 1) * 100|) ∧
       ((∀ o1 ∈ prices, ∀ o2 ∈ prices, o1.assetId = o2.assetId →
           o1.priceDate = o2.priceDate → o1 = o2) →
        ∀ pp, prevClose prices alert.assetId = some pp ↔
          ∃ lp o, latestPrice prices alert.assetId = some lp ∧
            o ∈ prices ∧ o.assetId = alert.assetId ∧
            o.priceDate < lp.priceDate ∧ o.close = pp ∧
            ∀ q ∈ prices, q.assetId = alert.assetId →
              q.priceDate < lp.priceDate → q.priceDate ≤ o.priceDate))) ∧
    evalTrigger [⟨1, 1, 100⟩, ⟨1, 2, 110⟩]
      ⟨7, 1, .changePercent, 5, "EUR", true, false, none, false⟩ = true ∧
    evalTrigger [⟨1, 1, 100⟩, ⟨1, 2, 103⟩]
      ⟨7, 1, .changePercent, 5, "EUR", true, false, none, false⟩ = false := by
  refine ⟨?_, ?_, ?_⟩
  · intro prices alert cp hty hcp
    constructor
    · unfold evalTrigger
      rw [hcp, hty]
      cases hprev : prevClose prices alert.assetId with
      | none => simp
      | some pp =>
          by_cases hpp : 0 < pp
          · simp [hpp]
          · simp [hpp]
    · intro huniq pp
      constructor
      · intro hpc
        unfold prevClose at hpc
        cases hpo : prevObs prices alert.assetId with
        | none => rw [hpo] at hpc; exact absurd hpc (by simp)
        | some o =>
            rw [hpo] at hpc
            simp at hpc
            obtain ⟨lp, hlp, ho, hoa, hod, homax⟩ := prevObs_some hpo
            exact ⟨lp, o, hlp, ho, hoa, hod, hpc, homax⟩
      · rintro ⟨lp, o, hlp, ho, hoa, hod, hocl, homax⟩
        obtain ⟨r, hr⟩ := prevObs_isSome hlp ho hoa hod
        obtain ⟨lp2, hlp2, hrmem, hra, hrd, hrmax⟩ := prevObs_some hr
        rw [hlp] at hlp2
        cases hlp2
        have hdate : r.priceDate = o.priceDate :=
          Nat.le_antisymm (homax r hrmem hra hrd) (hrmax o ho hoa hod)
        have : r = o := huniq r hrmem o ho (hra.trans hoa.symm) hdate
        subst this
        unfold prevClose
        rw [hr]
        simp [hocl]
  · simp [evalTrigger, latestClose, latestPrice, assetPrices,
      pickLatest, pickStep, prevClose, prevObs]
    norm_num
  · simp [evalTrigger, latestClose, latestPrice, assetPrices,
      pickLatest, pickStep, prevClose, prevObs]
    norm_num

/-- Witness for C1: the theorem applied to the day-1/day-2 price pair
`100`, `110` with threshold `5` (computed change `10% ≥ 5%`). -/
theorem change_percent_trigger_witness :
    evalTrigger [⟨1, 1, 100⟩, ⟨1, 2, 110⟩]
      ⟨9, 1, .changePercent, 5, "EUR", true, false, none, false⟩ = true := by
  have hcp : latestClose [(⟨1, 1, 100⟩ : PriceObs), ⟨1, 2, 110⟩] 1 =
      some 110 := by
    simp [latestClose, latestPrice, assetPrices, pickLatest, pickStep]
  have hprev : prevClose [(⟨1, 1, 100⟩ : PriceObs), ⟨1, 2, 110⟩] 1 =
      some 100 := by
    simp [prevClose, prevObs, latestPrice, assetPrices, pickLatest,
      pickStep]
  exact ((change_percent_trigger.1 [⟨1, 1, 100⟩, ⟨1, 2, 110⟩]
    ⟨9, 1, .changePercent, 5, "EUR", true, false, none, false⟩ 110
    rfl hcp).1).mpr ⟨100, hprev, by norm_num, by norm_num⟩

/-! ## Lemmas: position engine -/

lemma mem_positions {ledger : List Transaction} {pos : PortfolioPosition} :
    pos ∈ get_portfolio_positions ledger ↔
    ∃ k ∈ ledgerKeys ledger,
      0 < totalQuantity (groupTxns ledger k.1 k.2) ∧
      pos = mkPosition k.1 k.2 (groupTxns ledger k.1 k.2) := by
  unfold get_portfolio_positions
  rw [List.mem_filterMap]
  constructor
  · rintro ⟨k, hk, hf⟩
    by_cases h : 0 < totalQuantity (groupTxns ledger k.1 k.2)
    · simp only [h, if_true] at hf
      exact ⟨k, hk, h, (Option.some.inj hf).symm⟩
    · simp only [h, if_false] at hf
      exact absurd hf (by simp)
  · rintro ⟨k, hk, h, rfl⟩
    exact ⟨k, hk, by simp only [h, if_true]⟩

lemma pos_quantity_pos {ledger : List Transaction}
    {pos : PortfolioPosition} (h : pos ∈ get_portfolio_positions ledger) :
    0 < pos.quantity := by
  obtain ⟨k, _, hq, rfl⟩ := mem_positions.mp h
  simpa [mkPosition] using hq

lemma pos_quantity_eq {ledger : List Transaction}
    {pos : PortfolioPosition} (h : pos ∈ get_portfolio_positions ledger) :
    pos.quantity = totalQuantity (groupTxns ledger pos.assetId pos.currency) := by
  obtain ⟨k, _, hq, rfl⟩ := mem_positions.mp h
  simp [mkPosition]

lemma pos_avg_eq {ledger : List Transaction}
    {pos : PortfolioPosition} (h : pos ∈ get_portfolio_positions ledger) :
    pos.averageBuyPrice =
      signedCostSum (groupTxns ledger pos.assetId pos.currency) /
      totalQuantity (groupTxns ledger pos.assetId pos.currency) := by
  obtain ⟨k, _, hq, rfl⟩ := mem_positions.mp h
  have hne : totalQuantity (groupTxns ledger k.1 k.2) ≠ 0 := ne_of_gt hq
  show (mkPosition k.1 k.2 (groupTxns ledger k.1 k.2)).averageBuyPrice = _
  simp only [mkPosition, avgPriceRaw, hne, if_false]
  split_ifs with hv
  · exact hv.symm
  · rfl

lemma pos_group_ne_nil {ledger : List Transaction}
    {pos : PortfolioPosition} (h : pos ∈ get_portfolio_positions ledger) :
    groupTxns ledger pos.assetId pos.currency ≠ [] := by
  intro hnil
  have h1 := pos_quantity_pos h
  have h2 := pos_quantity_eq h
  rw [hnil] at h2
  simp [totalQuantity] at h2
  rw [h2] at h1
  exact lt_irrefl 0 h1

lemma pos_dates {ledger : List Transaction}
    {pos : PortfolioPosition} (h : pos ∈ get_portfolio_positions ledger) :
    ((∃ t ∈ groupTxns ledger pos.assetId pos.currency,
        t.transactionDate = pos.firstBuyDate) ∧
      ∀ t ∈ groupTxns ledger pos.assetId pos.currency,
        pos.firstBuyDate ≤ t.transactionDate) ∧
    ((∃ t ∈ groupTxns ledger pos.assetId pos.currency,
        t.transactionDate = pos.lastTransactionDate) ∧
      ∀ t ∈ groupTxns ledger pos.assetId pos.currency,
        t.transactionDate ≤ pos.lastTransactionDate) := by
  have hnil := pos_group_ne_nil h
  obtain ⟨k, _, hq, rfl⟩ := mem_positions.mp h
  set g := groupTxns ledger (mkPosition k.1 k.2 (groupTxns ledger k.1 k.2)).assetId
    (mkPosition k.1 k.2 (groupTxns ledger k.1 k.2)).currency with hg
  have hgk : g = groupTxns ledger k.1 k.2 := by rw [hg]; rfl
  constructor
  · cases hmin : (g.map (fun t => t.transactionDate)).min? with
    | none =>
        rw [List.min?_eq_none_iff, List.map_eq_nil_iff] at hmin
        rw [hgk] at hmin
        exact absurd hmin (by rw [← hgk]; exact hnil)
    | some m =>
        obtain ⟨hmem, hle⟩ := List.min?_eq_some_iff'.mp hmin
        obtain ⟨t, ht, htd⟩ := List.mem_map.mp hmem
        have hfbd : (mkPosition k.1 k.2 (groupTxns ledger k.1 k.2)).firstBuyDate = m := by
          simp only [mkPosition]
          rw [← hgk, hmin]
          rfl
        constructor
        · exact ⟨t, ht, by rw [htd, hfbd]⟩
        · intro t2 ht2
          rw [hfbd]
          exact hle _ (List.mem_map.mpr ⟨t2, ht2, rfl⟩)
  · cases hmax : (g.map (fun t => t.transactionDate)).max? with
    | none =>
        rw [List.max?_eq_none_iff, List.map_eq_nil_iff] at hmax
        rw [hgk] at hmax
        exact absurd hmax (by rw [← hgk]; exact hnil)
    | some m =>
        obtain ⟨hmem, hle⟩ := List.max?_eq_some_iff'.mp hmax
        obtain ⟨t, ht, htd⟩ := List.mem_map.mp hmem
        have hlbd : (mkPosition k.1 k.2 (groupTxns ledger k.1 k.2)).lastTransactionDate = m := by
          simp only [mkPosition]
          rw [← hgk, hmax]
          rfl
        constructor
        · exact ⟨t, ht, by rw [htd, hlbd]⟩
        · intro t2 ht2
          rw [hlbd]
          exact hle _ (List.mem_map.mpr ⟨t2, ht2, rfl⟩)

lemma positions_complete {ledger : List Transaction} {t : Transaction}
    (ht : t ∈ ledger)
    (hq : 0 < totalQuantity (groupTxns ledger t.assetId t.currency)) :
    ∃ pos ∈ get_portfolio_positions ledger,
      pos.assetId = t.assetId ∧ pos.currency = t.currency := by
  refine ⟨mkPosition t.assetId t.currency
    (groupTxns ledger t.assetId t.currency), ?_, rfl, rfl⟩
  apply mem_positions.mpr
  refine ⟨(t.assetId, t.currency), ?_, hq, rfl⟩
  rw [ledgerKeys, List.mem_dedup, List.mem_map]
  exact ⟨t, ht, rfl⟩

/-! ## C2 — position aggregation -/

/-- C2: every position the view emits belongs to one
`(asset_id, currency)` ledger group; its quantity is that group's signed
sum and is positive (groups netting `≤ 0` are dropped), its average buy
price is the signed cost sum over the signed quantity sum, and its
first/last dates are the minimum/maximum transaction dates of the group;
conversely every group with positive signed sum is emitted. -/
theorem positions_aggregation (ledger : List Transaction) :
    (∀ pos ∈ get_portfolio_positions ledger,
      0 < pos.quantity ∧
      pos.quantity =
        totalQuantity (groupTxns ledger pos.assetId pos.currency) ∧
      pos.averageBuyPrice =
        signedCostSum (groupTxns ledger pos.assetId pos.currency) /
        totalQuantity (groupTxns ledger pos.assetId pos.currency) ∧
      ((∃ t ∈ groupTxns ledger pos.assetId pos.currency,
          t.transactionDate = pos.firstBuyDate) ∧
        ∀ t ∈ groupTxns ledger pos.assetId pos.currency,
          pos.firstBuyDate ≤ t.transactionDate) ∧
      ((∃ t ∈ groupTxns ledger pos.assetId pos.currency,
          t.transactionDate = pos.lastTransactionDate) ∧
        ∀ t ∈ groupTxns ledger pos.assetId pos.currency,
          t.transactionDate ≤ pos.lastTransactionDate)) ∧
    (∀ t ∈ ledger,
      0 < totalQuantity (groupTxns ledger t.assetId t.currency) →
      ∃ pos ∈ get_portfolio_positions ledger,
        pos.assetId = t.assetId ∧ pos.currency = t.currency) := by
  constructor
  · intro pos h
    obtain ⟨hd1, hd2⟩ := pos_dates h
    exact ⟨pos_quantity_pos h, pos_quantity_eq h, pos_avg_eq h, hd1, hd2⟩
  · intro t ht hq
    exact positions_complete ht hq

lemma ex_positions : get_portfolio_positions exLedger =
    [⟨1, 15, 400/3, "EUR", 1, 2⟩] := by
  rw [get_portfolio_positions]
  have hkeys : ledgerKeys exLedger = [(1, "EUR")] := by
    simp [ledgerKeys, exLedger,
      List.dedup_nil, List.dedup_cons_of_mem, List.dedup_cons_of_not_mem]
  rw [hkeys]
  simp only [exLedger, groupTxns, List.filterMap_cons, List.filter_cons,
    List.filter_nil]
  simp [mkPosition, totalQuantity, signedCostSum, signedQty, avgPriceRaw]
  norm_num

/-- Witness for C2: on the two-BUY example ledger the emitted position
`(quantity 15, average 400/3)` satisfies the aggregation contract. -/
theorem positions_aggregation_witness :
    (⟨1, 15, 400/3, "EUR", 1, 2⟩ : PortfolioPosition) ∈
      get_portfolio_positions exLedger ∧ (0 : ℚ) < 15 := by
  have hmem : (⟨1, 15, 400/3, "EUR", 1, 2⟩ : PortfolioPosition) ∈
      get_portfolio_positions exLedger := by
    rw [ex_positions]; simp
  exact ⟨hmem, ((positions_aggregation exLedger).1 _ hmem).1⟩

/-! ## C10 — the total-cost guard suffices -/

/-- C10: for every emitted position (`quantity > 0`), the guard
`total_cost == 0` in `calculate_profit_loss_percent` holds exactly when
`average_buy_price = 0`; with a zero average the function returns `0`
before the division, and whenever the division is reached the divisor
`average_buy_price` is nonzero. -/
theorem pl_percent_guard_suffices (ledger : List Transaction)
    (pos : PortfolioPosition) (h : pos ∈ get_portfolio_positions ledger) :
    (calculate_total_cost pos = 0 ↔ pos.averageBuyPrice = 0) ∧
    (pos.averageBuyPrice = 0 →
      ∀ cp, calculate_profit_loss_percent pos cp = 0) ∧
    (calculate_total_cost pos ≠ 0 → pos.averageBuyPrice ≠ 0) := by
  have hq := pos_quantity_pos h
  have hiff : calculate_total_cost pos = 0 ↔ pos.averageBuyPrice = 0 := by
    unfold calculate_total_cost
    rw [mul_eq_zero]
    constructor
    · rintro (h1 | h1)
      · exact absurd h1 (ne_of_gt hq)
      · exact h1
    · exact Or.inr
  refine ⟨hiff, ?_, ?_⟩
  · intro havg cp
    unfold calculate_profit_loss_percent
    rw [if_pos (hiff.mpr havg)]
  · intro htc
    exact fun havg => htc (hiff.mpr havg)

/-- Witness for C10: the guard equivalence evaluated on the example
ledger's position (average `400/3 ≠ 0`, total cost `2000 ≠ 0`). -/
theorem pl_percent_guard_suffices_witness :
    calculate_total_cost (⟨1, 15, 400/3, "EUR", 1, 2⟩ : PortfolioPosition) ≠ 0 := by
  have hmem : (⟨1, 15, 400/3, "EUR", 1, 2⟩ : PortfolioPosition) ∈
      get_portfolio_positions exLedger := by
    rw [ex_positions]; simp
  intro htc
  have havg := (pl_percent_guard_suffices exLedger _ hmem).1.mp htc
  norm_num [PortfolioPosition.averageBuyPrice] at havg

/-! ## C3 — summary valuation formulas -/

/-- C3: every summary row satisfies
`current_value = quantity × current_price`,
`total_cost = quantity × average_buy_price`,
`profit_loss = current_value − total_cost`, and (whenever the average is
nonzero, which is the only case reaching the division)
`profit_loss_percent = (current_price − average) / average × 100`;
on the two-BUY example with latest price 150 the summary is
`average 400/3, value 2250, cost 2000, profit 250`. -/
theorem summary_valuation :
    (∀ (ledger : List Transaction) (prices : List PriceObs) (today : Nat),
      ∀ s ∈ get_portfolio_summary ledger prices today,
      s.currentValue = s.quantity * s.currentPrice ∧
      s.totalCost = s.quantity * s.avgBuyPrice ∧
      s.profitLoss = s.currentValue - s.totalCost ∧
      (s.avgBuyPrice ≠ 0 →
        s.profitLossPercent =
          (s.currentPrice - s.avgBuyPrice) / s.avgBuyPrice * 100)) ∧
    get_portfolio_summary exLedger exPrices 9 =
      [{ assetId := 1, quantity := 15, avgBuyPrice := 400/3,
         currentPrice := 150, currency := "EUR", currentValue := 2250,
         totalCost := 2000, profitLoss := 250, profitLossPercent := 25/2,
         lastUpdate := 2 }] := by
  constructor
  · intro ledger prices today s hs
    unfold get_portfolio_summary at hs
    obtain ⟨pos, hpos, hmk⟩ := List.mem_map.mp hs
    have hq := pos_quantity_pos hpos
    have key : ∀ (cp : ℚ) (lu : Nat), s = mkSummary pos cp lu →
        s.currentValue = s.quantity * s.currentPrice ∧
        s.totalCost = s.quantity * s.avgBuyPrice ∧
        s.profitLoss = s.currentValue - s.totalCost ∧
        (s.avgBuyPrice ≠ 0 →
          s.profitLossPercent =
            (s.currentPrice - s.avgBuyPrice) / s.avgBuyPrice * 100) := by
      rintro cp lu rfl
      refine ⟨rfl, rfl, rfl, ?_⟩
      intro havg
      have havg2 : pos.averageBuyPrice ≠ 0 := havg
      have htc : calculate_total_cost pos ≠ 0 :=
        mul_ne_zero (ne_of_gt hq) havg2
      show calculate_profit_loss_percent pos cp = _
      unfold calculate_profit_loss_percent
      rw [if_neg htc]
      rfl
    cases hlp : latestPrice prices pos.assetId with
    | none => rw [hlp] at hmk; exact key 0 today hmk.symm
    | some p => rw [hlp] at hmk; exact key p.close p.priceDate hmk.symm
  · rw [get_portfolio_summary, ex_positions]
    simp only [List.map_cons, List.map_nil]
    have hlp : latestPrice exPrices 1 = some ⟨1, 2, 150⟩ := by
      simp [latestPrice, exPrices, assetPrices, pickLatest, pickStep]
    rw [hlp]
    simp [mkSummary, calculate_current_value, calculate_total_cost,
      calculate_profit_loss, calculate_profit_loss_percent]
    norm_num

/-- Witness for C3: the valuation identities instantiated on the
concrete example summary (`2250 = 15 × 150`). -/
theorem summary_valuation_witness :
    ∃ s ∈ get_portfolio_summary exLedger exPrices 9,
      s.currentValue = s.quantity * s.currentPrice := by
  have hs : (⟨1, 15, 400/3, 150, "EUR", 2250, 2000, 250, 25/2, 2⟩ :
      PortfolioSummary) ∈
      get_portfolio_summary exLedger exPrices 9 := by
    rw [summary_valuation.2]; simp
  exact ⟨_, hs, (summary_valuation.1 exLedger exPrices 9 _ hs).1⟩

/-! ## Lemmas: per-currency accumulation -/

lemma assocVal_cons {V : Type} [Zero V] (p : String × V)
    (m : List (String × V)) (c : String) :
    assocVal (p :: m) c = if p.1 = c then p.2 else assocVal m c := by
  by_cases h : p.1 = c
  · simp [assocVal, List.find?_cons_of_pos, h]
  · simp only [assocVal, if_neg h]
    rw [List.find?_cons_of_neg]
    simpa using h

lemma updMap_notAny {V : Type} [Add V] (m : List (String × V))
    (c : String) (v : V) (h : m.any (fun q => q.1 == c) = false) :
    m.map (fun q => if q.1 == c then (q.1, q.2 + v) else q) = m := by
  induction m with
  | nil => rfl
  | cons p m ih =>
      simp only [List.any_cons, Bool.or_eq_false_iff] at h
      simp only [List.map_cons, h.1, Bool.false_eq_true, if_false,
        List.cons.injEq, true_and, eq_self_iff_true]
      exact ih h.2

lemma updateAssoc_cons_miss {V : Type} [Add V] (p : String × V)
    (m : List (String × V)) (c : String) (v : V) (hp : p.1 ≠ c) :
    updateAssoc (p :: m) c v = p :: updateAssoc m c v := by
  have hpb : (p.1 == c) = false := by simpa using hp
  by_cases ham : m.any (fun q => q.1 == c) = true
  · have hany : (p :: m).any (fun q => q.1 == c) = true := by
      simp [List.any_cons, ham]
    simp only [updateAssoc, hany, ham, if_true, List.map_cons, hpb,
      Bool.false_eq_true, if_false]
  · have ham2 : m.any (fun q => q.1 == c) = false :=
      Bool.eq_false_iff.mpr ham
    have hany : (p :: m).any (fun q => q.1 == c) = false := by
      simp only [List.any_cons, Bool.or_eq_false_iff]
      exact ⟨hpb, ham2⟩
    simp only [updateAssoc, hany, ham2, Bool.false_eq_true, if_false,
      List.cons_append]

lemma updateAssoc_cons_hit {V : Type} [Add V] (p : String × V)
    (m : List (String × V)) (c : String) (v : V) (hp : p.1 = c) :
    updateAssoc (p :: m) c v = (p.1, p.2 + v) ::
      m.map (fun q => if q.1 == c then (q.1, q.2 + v) else q) := by
  have hpb : (p.1 == c) = true := by simpa using hp
  have hany : (p :: m).any (fun q => q.1 == c) = true := by
    simp [List.any_cons, hpb]
  simp only [updateAssoc, hany, if_true, List.map_cons, hpb]

lemma assocVal_updateAssoc_same {V : Type} [AddCommMonoid V]
    (m : List (String × V)) (c : String) (v : V) :
    assocVal (updateAssoc m c v) c = assocVal m c + v := by
  induction m with
  | nil =>
      show assocVal ([] ++ [(c, v)]) c = assocVal [] c + v
      simp [assocVal_cons, assocVal]
  | cons p m ih =>
      by_cases hp : p.1 = c
      · rw [updateAssoc_cons_hit p m c v hp]
        rw [assocVal_cons, assocVal_cons, if_pos hp, if_pos hp]
      · rw [updateAssoc_cons_miss p m c v hp]
        rw [assocVal_cons, assocVal_cons, if_neg hp, if_neg hp, ih]

lemma assocVal_updateAssoc_ne {V : Type} [AddCommMonoid V]
    (m : List (String × V)) (c c2 : String) (v : V) (h : c ≠ c2) :
    assocVal (updateAssoc m c v) c2 = assocVal m c2 := by
  induction m with
  | nil =>
      show assocVal ([] ++ [(c, v)]) c2 = assocVal [] c2
      simp [assocVal_cons, assocVal, h]
  | cons p m ih =>
      by_cases hp : p.1 = c
      · rw [updateAssoc_cons_hit p m c v hp]
        rw [assocVal_cons, assocVal_cons]
        rw [if_neg (by rw [hp]; exact h), if_neg (by rw [hp]; exact h)]
        by_cases ham : m.any (fun q => q.1 == c) = true
        · have := ih
          rw [updateAssoc, if_pos ham] at this
          exact this
        · rw [updMap_notAny m c v (Bool.eq_false_iff.mpr ham)]
      · rw [updateAssoc_cons_miss p m c v hp]
        rw [assocVal_cons, assocVal_cons]
        by_cases hp2 : p.1 = c2
        · rw [if_pos hp2, if_pos hp2]
        · rw [if_neg hp2, if_neg hp2]
          exact ih

lemma assocVal_foldl {α V : Type} [AddCommMonoid V]
    (curOf : α → String) (valOf : α → V) :
    ∀ (l : List α) (m : List (String × V)) (c : String),
    assocVal (l.foldl (fun m2 s => updateAssoc m2 (curOf s) (valOf s)) m) c
      = assocVal m c + ((l.filter (fun s => curOf s == c)).map valOf).sum := by
  intro l
  induction l with
  | nil => intro m c; simp
  | cons s l ih =>
      intro m c
      rw [List.foldl_cons, ih]
      by_cases hc : curOf s = c
      · rw [show updateAssoc m (curOf s) (valOf s)
            = updateAssoc m c (valOf s) by rw [hc]]
        rw [assocVal_updateAssoc_same]
        rw [show (s :: l).filter (fun s2 => curOf s2 == c)
            = s :: l.filter (fun s2 => curOf s2 == c) by
          simp [List.filter_cons, hc]]
        rw [List.map_cons, List.sum_cons, add_assoc]
      · rw [assocVal_updateAssoc_ne m (curOf s) c (valOf s) hc]
        rw [show (s :: l).filter (fun s2 => curOf s2 == c)
            = l.filter (fun s2 => curOf s2 == c) by
          simp [List.filter_cons, hc]]

lemma foldl_head_key {α V : Type} [Add V]
    (curOf : α → String) (valOf : α → V) :
    ∀ (l : List α) (c : String) (w : V) (m0 : List (String × V)),
    ∃ v t, l.foldl (fun m2 s => updateAssoc m2 (curOf s) (valOf s))
        ((c, w) :: m0) = (c, v) :: t := by
  intro l
  induction l with
  | nil => intro c w m0; exact ⟨w, m0, rfl⟩
  | cons s l ih =>
      intro c w m0
      rw [List.foldl_cons]
      by_cases hc : c = curOf s
      · rw [updateAssoc_cons_hit (c, w) m0 (curOf s) (valOf s) hc]
        exact ih c (w + valOf s)
          (m0.map (fun q =>
            if q.1 == curOf s then (q.1, q.2 + valOf s) else q))
      · rw [updateAssoc_cons_miss (c, w) m0 (curOf s) (valOf s) hc]
        exact ih c w (updateAssoc m0 (curOf s) (valOf s))

lemma sum_fst3 : ∀ l : List (ℚ × ℚ × ℚ),
    l.sum.1 = (l.map (fun x => x.1)).sum := by
  intro l
  induction l with
  | nil => rfl
  | cons x l ih => simp [List.sum_cons, Prod.fst_add, ih]

/-! ## C9 — totals use only the first currency encountered -/

/-- C9: on a non-empty summary list, the total portfolio value is the
sum of `current_value` over exactly the summaries whose currency equals
the first summary's currency (others are silently excluded), and the
returned currency is that first-encountered currency; likewise the total
profit/loss sums `profit_loss` over that same currency slice and returns
that currency. -/
theorem totals_first_currency (defaultCurrency : String)
    (s0 : PortfolioSummary) (rest : List PortfolioSummary) :
    get_total_portfolio_value defaultCurrency (s0 :: rest) =
      ((((s0 :: rest).filter (fun s => s.currency == s0.currency)).map
          (fun s => s.currentValue)).sum, s0.currency) ∧
    (get_total_profit_loss defaultCurrency (s0 :: rest)).1 =
      (((s0 :: rest).filter (fun s => s.currency == s0.currency)).map
        (fun s => s.profitLoss)).sum ∧
    (get_total_profit_loss defaultCurrency (s0 :: rest)).2.2 =
      s0.currency := by
  have hfilter0 : ∀ {β : Type} (f : PortfolioSummary → β),
      ((s0 :: rest).filter (fun s => s.currency == s0.currency)).map f
        = f s0 :: (rest.filter (fun s => s.currency == s0.currency)).map f := by
    intro β f
    rw [show (s0 :: rest).filter (fun s => s.currency == s0.currency)
        = s0 :: rest.filter (fun s => s.currency == s0.currency) by
      simp [List.filter_cons]]
    rw [List.map_cons]
  constructor
  · obtain ⟨v, t, hft⟩ := foldl_head_key
      (fun s : PortfolioSummary => s.currency)
      (fun s : PortfolioSummary => s.currentValue) rest
      s0.currency s0.currentValue []
    have h0 : foldTotals (fun s : PortfolioSummary => s.currency)
        (fun s => s.currentValue) (s0 :: rest) = (s0.currency, v) :: t := by
      rw [foldTotals, List.foldl_cons]
      exact hft
    have hv := assocVal_foldl (fun s : PortfolioSummary => s.currency)
      (fun s => s.currentValue) rest
      [(s0.currency, s0.currentValue)] s0.currency
    rw [hft] at hv
    rw [assocVal_cons, if_pos rfl, assocVal_cons, if_pos rfl] at hv
    have hv2 : v = s0.currentValue +
        ((rest.filter (fun s => s.currency == s0.currency)).map
          (fun s => s.currentValue)).sum := by
      simpa using hv
    simp only [get_total_portfolio_value, h0]
    rw [hfilter0 (fun s => s.currentValue), List.sum_cons, hv2]
  · obtain ⟨v, t, hft⟩ := foldl_head_key
      (fun s : PortfolioSummary => s.currency)
      (fun s : PortfolioSummary => (s.profitLoss, s.totalCost, s.currentValue))
      rest s0.currency (s0.profitLoss, s0.totalCost, s0.currentValue) []
    have h0 : foldTotals (fun s : PortfolioSummary => s.currency)
        (fun s => (s.profitLoss, s.totalCost, s.currentValue)) (s0 :: rest)
        = (s0.currency, v) :: t := by
      rw [foldTotals, List.foldl_cons]
      exact hft
    have hv := assocVal_foldl (fun s : PortfolioSummary => s.currency)
      (fun s => (s.profitLoss, s.totalCost, s.currentValue)) rest
      [(s0.currency, (s0.profitLoss, s0.totalCost, s0.currentValue))]
      s0.currency
    rw [hft] at hv
    rw [assocVal_cons, if_pos rfl, assocVal_cons, if_pos rfl] at hv
    have hv2 : v = (s0.profitLoss, s0.totalCost, s0.currentValue) +
        ((rest.filter (fun s => s.currency == s0.currency)).map
          (fun s => (s.profitLoss, s.totalCost, s.currentValue))).sum := by
      simpa using hv
    constructor
    · simp only [get_total_profit_loss, h0]
      show v.1 = _
      rw [hv2, Prod.fst_add, sum_fst3, List.map_map]
      rw [hfilter0 (fun s => s.profitLoss), List.sum_cons]
      rfl
    · simp only [get_total_profit_loss, h0]

/-- Witness for C9: a two-currency summary list — the EUR row is first,
so the USD row's value is excluded and the result carries EUR. -/
theorem totals_first_currency_witness :
    get_total_portfolio_value "EUR"
      [⟨1, 1, 1, 10, "EUR", 10, 1, 9, 900, 1⟩,
       ⟨2, 1, 1, 20, "USD", 20, 1, 19, 1900, 1⟩] = (10, "EUR") := by
  have h := (totals_first_currency "EUR"
    ⟨1, 1, 1, 10, "EUR", 10, 1, 9, 900, 1⟩
    [⟨2, 1, 1, 20, "USD", 20, 1, 19, 1900, 1⟩]).1
  rw [h]
  simp [List.filter_cons]

/-! ## Lemmas: alert table evolution -/

/-- Relation between a `price_alert` table before and after (part of)
one evaluation pass: same length, and each row is either untouched or
exactly the atomic trigger update persisted for it. -/
def TableRel (now : Nat) (t0 t1 : List PriceAlert) : Prop :=
  t1.length = t0.length ∧
  ∀ (i : Nat) (a b : PriceAlert), t0[i]? = some a → t1[i]? = some b →
    b = a ∨ b = triggeredVersion a now

lemma tableRel_refl (now : Nat) (t : List PriceAlert) : TableRel now t t := by
  refine ⟨rfl, fun i a b h1 h2 => ?_⟩
  rw [h1] at h2
  exact Or.inl (Option.some.inj h2).symm

lemma triggeredVersion_idem (a : PriceAlert) (now : Nat) :
    triggeredVersion (triggeredVersion a now) now = triggeredVersion a now :=
  rfl

lemma tableRel_update {now : Nat} {t0 t1 : List PriceAlert}
    (h : TableRel now t0 t1) (aid : Nat) :
    TableRel now t0 (triggerUpdate t1 aid now) := by
  obtain ⟨hlen, hrel⟩ := h
  constructor
  · rw [triggerUpdate, List.length_map, hlen]
  · intro i a b h1 h2
    rw [triggerUpdate, List.getElem?_map] at h2
    cases ht1 : t1[i]? with
    | none => rw [ht1] at h2; exact absurd h2 (by simp)
    | some b1 =>
        rw [ht1] at h2
        rw [Option.map_some'] at h2
        have hb := Option.some.inj h2
        rcases hrel i a b1 h1 ht1 with h3 | h3
        · subst h3
          by_cases hid : (b1.id == aid) = true
          · rw [if_pos hid] at hb
            exact Or.inr hb.symm
          · rw [if_neg hid] at hb
            exact Or.inl hb.symm
        · subst h3
          by_cases hid : ((triggeredVersion a now).id == aid) = true
          · rw [if_pos hid] at hb
            rw [triggeredVersion_idem] at hb
            exact Or.inr hb.symm
          · rw [if_neg hid] at hb
            exact Or.inr hb.symm

lemma runAlerts_rel (prices : List PriceObs) (now : Nat) :
    ∀ (active : List PriceAlert) (t0 t1 : List PriceAlert)
      (batch : List TriggeredAlert),
    TableRel now t0 t1 →
    TableRel now t0 (runAlerts prices now active t1 batch).1 := by
  intro active
  induction active with
  | nil => intro t0 t1 batch h; exact h
  | cons a rest ih =>
      intro t0 t1 batch h
      rw [runAlerts_cons]
      by_cases he : evalTrigger prices a = true
      · rw [if_pos he]
        exact ih t0 _ _ (tableRel_update h a.id)
      · rw [if_neg he]
        exact ih t0 _ _ h

lemma runAlertsFallible_error_rel (prices : List PriceObs) (now : Nat)
    (pf : Nat → Bool) :
    ∀ (active : List PriceAlert) (t0 t1 : List PriceAlert)
      (batch : List TriggeredAlert) (table : List PriceAlert),
    TableRel now t0 t1 →
    runAlertsFallible prices now pf active t1 batch = .error table →
    TableRel now t0 table := by
  intro active
  induction active with
  | nil =>
      intro t0 t1 batch table _ h
      rw [runAlertsFallible_nil] at h
      exact absurd h (by simp)
  | cons a rest ih =>
      intro t0 t1 batch table hrel h
      rw [runAlertsFallible_cons] at h
      by_cases he : evalTrigger prices a = true
      · rw [if_pos he] at h
        by_cases hf : pf a.id = true
        · rw [if_pos hf] at h
          have : t1 = table := Except.error.inj h
          exact this ▸ hrel
        · rw [if_neg hf] at h
          exact ih t0 _ _ table (tableRel_update hrel a.id) h
      · rw [if_neg he] at h
        exact ih t0 _ _ table hrel h

/-! ## C5 — alert triggering is monotone -/

/-- C5: one evaluation pass only rewrites rows to their triggered
version (`TableRel`), and across any sequence of passes over any price
histories a `triggered = true` flag is never reset to `false`. -/
theorem alert_trigger_monotone :
    (∀ (prices : List PriceObs) (now : Nat) (cb : Bool)
      (alerts : List PriceAlert),
      TableRel now alerts (check_alerts prices now cb alerts).1) ∧
    (∀ (passes : List (List PriceObs × Nat)) (alerts : List PriceAlert),
      (runPasses passes alerts).length = alerts.length ∧
      ∀ (i : Nat) (a b : PriceAlert), alerts[i]? = some a →
        (runPasses passes alerts)[i]? = some b →
        a.triggered = true → b.triggered = true) := by
  have hpass : ∀ (prices : List PriceObs) (now : Nat) (cb : Bool)
      (alerts : List PriceAlert),
      TableRel now alerts (check_alerts prices now cb alerts).1 := by
    intro prices now cb alerts
    exact runAlerts_rel prices now (get_active_alerts alerts) alerts alerts
      [] (tableRel_refl now alerts)
  refine ⟨hpass, ?_⟩
  intro passes
  induction passes with
  | nil =>
      intro alerts
      refine ⟨rfl, fun i a b h1 h2 h3 => ?_⟩
      simp only [runPasses, List.foldl_nil] at h2
      rw [h1] at h2
      rw [← Option.some.inj h2]
      exact h3
  | cons p ps ih =>
      intro alerts
      have hstep := hpass p.1 p.2 true alerts
      obtain ⟨hlen1, hrel1⟩ := hstep
      set t1 := (check_alerts p.1 p.2 true alerts).1 with ht1def
      have hrun : runPasses (p :: ps) alerts = runPasses ps t1 := by
        simp only [runPasses, List.foldl_cons]
      obtain ⟨hlen2, hrel2⟩ := ih t1
      rw [hrun]
      refine ⟨hlen2.trans hlen1, ?_⟩
      intro i a b h1 h2 h3
      have hi : i < alerts.length := by
        rcases List.getElem?_eq_some.mp h1 with ⟨hlt, _⟩
        exact hlt
      have hi1 : i < t1.length := by rw [hlen1]; exact hi
      have hmid : t1[i]? = some t1[i] := List.getElem?_eq_getElem hi1
      have hmidtrig : (t1[i]).triggered = true := by
        rcases hrel1 i a (t1[i]) h1 hmid with h4 | h4
        · rw [h4]; exact h3
        · rw [h4]; rfl
      exact hrel2 i (t1[i]) b hmid h2 hmidtrig

/-- Witness for C5: a pre-triggered alert stays triggered across a pass
over an empty price table. -/
theorem alert_trigger_monotone_witness :
    ∃ b, (runPasses [([], 0)]
      [⟨1, 1, .above, 10, "EUR", true, true, none, true⟩])[0]? = some b ∧
      b.triggered = true := by
  have h := (alert_trigger_monotone.2 [([], 0)]
    [⟨1, 1, .above, 10, "EUR", true, true, none, true⟩])
  obtain ⟨hlen, hmono⟩ := h
  have h0 : (runPasses [([], 0)]
      [⟨1, 1, .above, 10, "EUR", true, true, none, true⟩]).length = 1 := hlen
  cases hb : (runPasses [([], 0)]
      [⟨1, 1, .above, 10, "EUR", true, true, none, true⟩])[0]? with
  | none =>
      rw [List.getElem?_eq_none_iff] at hb
      rw [h0] at hb
      exact absurd hb (by norm_num)
  | some b =>
      exact ⟨b, rfl, hmono 0 _ b rfl hb rfl⟩

/-! ## C8 — at most one notification per pass -/

/-- C8: in a pass the callback-invocation list has length at most one;
it is exactly the singleton carrying the whole batch when a callback is
registered and the batch is non-empty, and it is empty when the batch is
empty or no callback is registered. -/
theorem notification_at_most_once (prices : List PriceObs) (now : Nat)
    (cb : Bool) (alerts : List PriceAlert) :
    (check_alerts prices now cb alerts).2.2.length ≤ 1 ∧
    ((check_alerts prices now cb alerts).2.1 ≠ [] → cb = true →
      (check_alerts prices now cb alerts).2.2 =
        [(check_alerts prices now cb alerts).2.1]) ∧
    ((check_alerts prices now cb alerts).2.1 = [] →
      (check_alerts prices now cb alerts).2.2 = []) ∧
    (cb = false → (check_alerts prices now cb alerts).2.2 = []) := by
  simp only [check_alerts]
  by_cases h : (runAlerts prices now (get_active_alerts alerts) alerts []).2
      ≠ [] ∧ cb = true
  · rw [if_pos h]
    refine ⟨by norm_num, fun _ _ => rfl, fun hb => absurd hb h.1, ?_⟩
    intro hcb
    rw [hcb] at h
    exact absurd h.2 (by simp)
  · rw [if_neg h]
    refine ⟨by norm_num, ?_, fun _ => rfl, fun _ => rfl⟩
    intro hb hcb
    exact absurd ⟨hb, hcb⟩ h

/-- Witness for C8: on the two-alert scenario with a registered
callback, the callback is invoked exactly once with the whole batch. -/
theorem notification_at_most_once_witness :
    (check_alerts cxAlertPrices 5 true cxAlerts).2.2 =
      [(check_alerts cxAlertPrices 5 true cxAlerts).2.1] := by
  have hbatch : (check_alerts cxAlertPrices 5 true cxAlerts).2.1 ≠ [] := by
    norm_num [check_alerts, cxAlerts, cxAlertPrices, get_active_alerts,
      runAlerts_nil, runAlerts_cons, evalTrigger, latestClose,
      latestPrice, assetPrices, pickLatest, pickStep, triggerUpdate,
      mkTriggeredAlert, List.filter_cons]
    exact List.cons_ne_nil _ _
  exact (notification_at_most_once cxAlertPrices 5 true cxAlerts).2.1
    hbatch rfl

/-! ## C6 — failure semantics of one pass -/

lemma cx_fallible_eval :
    check_alerts_fallible cxAlertPrices 5 cxFail true cxAlerts =
      .error [⟨1, 1, .above, 10, "EUR", true, true, some 5, true⟩,
              ⟨2, 1, .above, 10, "EUR", true, false, none, false⟩] := by
  norm_num [check_alerts_fallible, cxAlerts, cxAlertPrices, cxFail,
    get_active_alerts, runAlertsFallible_nil, runAlertsFallible_cons,
    evalTrigger, latestClose, latestPrice, assetPrices, pickLatest,
    pickStep, triggerUpdate, triggeredVersion, mkTriggeredAlert,
    List.filter_cons]

/-- Counterexample to C6 as stated: on the two-alert scenario where the
persist of alert 2 fails, the pass aborts with an error, yet alert 1 —
persisted and committed earlier in the same pass — remains triggered:
its persisted `triggered` state did change as a result of the aborted
pass (it started `false`). -/
theorem pass_failure_not_atomic :
    (∃ table, check_alerts_fallible cxAlertPrices 5 cxFail true cxAlerts =
        .error table ∧
      table[0]?.map (fun a => a.triggered) = some true) ∧
    cxAlerts[0]?.map (fun a => a.triggered) = some false := by
  refine ⟨⟨_, cx_fallible_eval, rfl⟩, ?_⟩
  simp [cxAlerts]

/-- C6 amended: a failure while evaluating or persisting an alert aborts
the pass — the error propagates and no batch (hence no notification) is
produced — and each alert row is either untouched or carries exactly its
own committed atomic trigger update; alerts persisted earlier in the
pass stay triggered, so the pass is not atomic as a whole. -/
theorem pass_failure_semantics (prices : List PriceObs) (now : Nat)
    (pf : Nat → Bool) (cb : Bool) (alerts table : List PriceAlert)
    (h : check_alerts_fallible prices now pf cb alerts = .error table) :
    TableRel now alerts table ∧
    ∀ r, check_alerts_fallible prices now pf cb alerts ≠ .ok r := by
  constructor
  · unfold check_alerts_fallible at h
    cases hr : runAlertsFallible prices now pf (get_active_alerts alerts)
        alerts [] with
    | error tbl =>
        rw [hr] at h
        have htbl : tbl = table := Except.error.inj h
        rw [← htbl]
        exact runAlertsFallible_error_rel prices now pf
          (get_active_alerts alerts) alerts alerts [] tbl
          (tableRel_refl now alerts) hr
    | ok r =>
        obtain ⟨tbl2, batch2⟩ := r
        rw [hr] at h
        exact absurd h (by simp)
  · intro r hok
    rw [h] at hok
    exact absurd hok (by simp)

/-- Witness for C6 (amended): on the concrete failing scenario the
error table is related to the initial table row by row. -/
theorem pass_failure_semantics_witness :
    TableRel 5 cxAlerts
      [⟨1, 1, .above, 10, "EUR", true, true, some 5, true⟩,
       ⟨2, 1, .above, 10, "EUR", true, false, none, false⟩] :=
  (pass_failure_semantics cxAlertPrices 5 cxFail true cxAlerts _
    cx_fallible_eval).1

/-! ## Lemmas: sell validation -/

lemma validate_quantity_ok {q v : ℚ} (h : validate_quantity q = .ok v) :
    v = q := by
  unfold validate_quantity at h
  split_ifs at h
  exact (Except.ok.inj h).symm

lemma validate_quantity_pos {q v : ℚ} (h : validate_quantity q = .ok v) :
    0 < q := by
  unfold validate_quantity at h
  split_ifs at h with h1 h2 h3
  exact lt_of_not_le h1

lemma validate_transaction_sell_fails {ledger : List Transaction}
    {aid : Nat} {qty : ℚ} (hq : get_asset_quantity ledger aid < qty) :
    ∃ e, validate_transaction ledger aid .sell qty = .error e := by
  unfold validate_transaction
  by_cases h0 : get_asset_quantity ledger aid = 0
  · exact ⟨_, by rw [if_pos h0]⟩
  · exact ⟨_, by rw [if_neg h0, if_pos hq]⟩

lemma add_transaction_sell_error (today : Nat) (defaultCurrency : String)
    (ledger : List Transaction) (aid : Nat) (qty price : ℚ)
    (cur : String) (dte : Nat)
    (h : qty ≤ 0 ∨ get_asset_quantity ledger aid < qty) :
    ∃ e, add_transaction today defaultCurrency ledger aid .sell qty price
      cur dte = .error e := by
  unfold add_transaction
  by_cases ha : aid = 0
  · rw [if_pos ha]; exact ⟨_, rfl⟩
  rw [if_neg ha]
  cases hv : validate_quantity qty with
  | error e => exact ⟨e, rfl⟩
  | ok vq =>
      have hq : get_asset_quantity ledger aid < qty := by
        rcases h with h1 | h1
        · exact absurd (validate_quantity_pos hv) (not_lt.mpr h1)
        · exact h1
      have hvq := validate_quantity_ok hv
      subst hvq
      cases hp : validate_price price with
      | error e => exact ⟨e, rfl⟩
      | ok vp =>
          cases hc : validate_currency
              (if (strTrim cur).isEmpty then defaultCurrency
               else strTrim cur) with
          | error e => exact ⟨e, rfl⟩
          | ok vc =>
              cases hd : validate_date today dte with
              | error e => exact ⟨e, rfl⟩
              | ok vd =>
                  obtain ⟨e, he⟩ := validate_transaction_sell_fails hq
                  refine ⟨e, ?_⟩
                  dsimp only
                  rw [he]

lemma gaq_cases_of_single_currency {ledger : List Transaction}
    {aid : Nat} {c0 : String}
    (hcur : ∀ t ∈ ledger, t.assetId = aid → t.currency = c0) :
    get_asset_quantity ledger aid = 0 ∨
    get_asset_quantity ledger aid = netHoldings ledger aid := by
  unfold get_asset_quantity
  cases hf : (get_portfolio_positions ledger).find?
      (fun p => p.assetId == aid) with
  | none => exact Or.inl rfl
  | some pos =>
      dsimp only
      have hmem := List.mem_of_find?_eq_some hf
      have haid : pos.assetId = aid := by
        have := List.find?_some hf
        simpa using this
      have hqe := pos_quantity_eq hmem
      rw [haid] at hqe
      by_cases hpc : pos.currency = c0
      · right
        rw [hqe, hpc]
        unfold netHoldings
        congr 1
        apply List.filter_congr
        intro t ht
        by_cases hta : t.assetId = aid
        · have := hcur t ht hta
          simp [hta, this]
        · simp [hta]
      · exfalso
        have hnil : groupTxns ledger aid pos.currency = [] := by
          rw [groupTxns]
          rw [List.filter_eq_nil_iff]
          intro t ht hcond
          simp only [Bool.and_eq_true, beq_iff_eq] at hcond
          exact hpc (hcond.2 ▸ hcur t ht hcond.1)
        have hq := pos_quantity_pos hmem
        rw [hqe, hnil] at hq
        simp [totalQuantity] at hq

/-! ## C7 — sell validation -/

lemma cx_keys : ledgerKeys cxLedger = [(1, "EUR"), (1, "USD")] := by
  simp [ledgerKeys, cxLedger,
    List.dedup_nil, List.dedup_cons_of_mem, List.dedup_cons_of_not_mem]

lemma cx_positions : get_portfolio_positions cxLedger =
    [⟨1, 10, 100, "EUR", 1, 1⟩] := by
  rw [get_portfolio_positions, cx_keys]
  simp only [cxLedger, groupTxns, List.filterMap_cons, List.filter_cons,
    List.filter_nil]
  simp [mkPosition, totalQuantity, signedCostSum, signedQty, avgPriceRaw]
  norm_num

lemma cx_gaq : get_asset_quantity cxLedger 1 = 10 := by
  simp [get_asset_quantity, cx_positions, List.find?]

lemma cx_varg :
    validate_currency
      (if (strTrim "EUR").isEmpty then "EUR" else strTrim "EUR") =
      .ok "EUR" := by
  decide

/-- Counterexample to C7 as stated: in the two-currency ledger
`cxLedger` the asset's net holdings are 2, yet a SELL of quantity 5
(strictly greater) passes validation and is persisted — the guard
compares against the first listed position (quantity 10), not against
the asset's net holdings. -/
theorem sell_validation_counterexample :
    netHoldings cxLedger 1 = 2 ∧ (2 : ℚ) < 5 ∧
    add_transaction 10 "EUR" cxLedger 1 .sell 5 100 "EUR" 3 =
      .ok (cxLedger ++ [⟨1, .sell, 5, 100, "EUR", 3⟩]) := by
  refine ⟨?_, by norm_num, ?_⟩
  · norm_num [netHoldings, cxLedger, totalQuantity, signedQty,
      List.filter_cons]
  · rw [add_transaction]
    norm_num [validate_quantity, validate_price, validate_date,
      validate_transaction, cx_gaq, cx_varg, minAmount, maxAmount]

/-- C7 amended: a SELL whose quantity strictly exceeds
`get_asset_quantity` — the quantity of the first position listed for the
asset, `0` when none — fails with a validation error before any
persistence call and leaves the ledger unchanged (the call returns an
error and no row is appended). When all of the asset's transactions
share one currency this guard coincides with the asset's net holdings,
so the original claim holds there; with transactions in several
currencies a SELL exceeding net holdings can be accepted. -/
theorem sell_validation (today : Nat) (defaultCurrency : String)
    (ledger : List Transaction) (aid : Nat) (qty price : ℚ)
    (cur : String) (dte : Nat) :
    (get_asset_quantity ledger aid < qty →
      ∃ e, add_transaction today defaultCurrency ledger aid .sell qty
        price cur dte = .error e) ∧
    (∀ c0 : String, (∀ t ∈ ledger, t.assetId = aid → t.currency = c0) →
      netHoldings ledger aid < qty →
      ∃ e, add_transaction today defaultCurrency ledger aid .sell qty
        price cur dte = .error e) := by
  constructor
  · intro hq
    exact add_transaction_sell_error today defaultCurrency ledger aid qty
      price cur dte (Or.inr hq)
  · intro c0 hcur hnet
    apply add_transaction_sell_error
    by_cases hq0 : qty ≤ 0
    · exact Or.inl hq0
    · right
      rcases gaq_cases_of_single_currency hcur with h | h
      · rw [h]; exact lt_of_not_le hq0
      · rw [h]; exact hnet

/-- Witness for C7 (amended): selling 12 from the `cxLedger` scenario
(first listed position holds 10) is rejected. -/
theorem sell_validation_witness :
    ∃ e, add_transaction 10 "EUR" cxLedger 1 .sell 12 100 "EUR" 3 =
      .error e := by
  apply (sell_validation 10 "EUR" cxLedger 1 12 100 "EUR" 3).1
  rw [cx_gaq]
  norm_num

end MeinPortfolio
